import Mathlib

/-!
Verification development for the feelpp/apt publishing and retention tool.

The definitions below are a shallow embedding of the Python sources:
  - src/src/feelpp_aptly_publisher/publisher.py (class AptlyPublisher)
  - src/scripts/aptly_publish.py (standalone script)
  - src/src/feelpp_aptly_publisher/cleaner.py (class AptlyCleaner)
  - src/src/feelpp_aptly_publisher/cli.py (cleanup subcommand wiring)

External collaborators (the aptly repo engine and dpkg version comparison)
are modelled at their boundary as the specification describes them.
-/

namespace FeelppApt

/-! ## Component normalization

Embedding of AptlyPublisher._normalize_component (publisher.py lines 69-74)
and of norm_component (scripts/aptly_publish.py lines 51-54):

    s = s.lower()
    s = re.sub(r"[^a-z0-9]+", "-", s)
    return s.strip("-")

Characters are modelled as Lean Char; the Python str.lower is modelled on
the ASCII range (uppercase letters map to lowercase, everything else is
unchanged), which is exact for ASCII input. -/

/-- Character class [a-z0-9], the class kept by the regex in the source
(code points 97-122 are a-z, 48-57 are 0-9). -/
def isLowerAlnum (c : Char) : Bool :=
  (97 ≤ c.toNat && c.toNat ≤ 122) || (48 ≤ c.toNat && c.toNat ≤ 57)

/-- Model of str.lower on one character (ASCII range; code points 65-90 are
A-Z, which map to a-z by adding 32). -/
def lowerChar (c : Char) : Char :=
  if 65 ≤ c.toNat && c.toNat ≤ 90 then Char.ofNat (c.toNat + 32) else c

/-- Model of re.sub(r"[^a-z0-9]+", "-", s): every maximal run of characters
outside [a-z0-9] is replaced by a single hyphen. -/
def collapseRuns : List Char → List Char
  | [] => []
  | c :: rest =>
    if isLowerAlnum c then c :: collapseRuns rest
    else '-' :: collapseRuns (rest.dropWhile (fun d => !isLowerAlnum d))
termination_by l => l.length
decreasing_by
  · simp
  · simp only [List.length_cons]
    exact Nat.lt_succ_of_le (List.dropWhile_sublist _).length_le

/-- Model of str.strip("-"): drop leading and trailing hyphens. -/
def stripDash (l : List Char) : List Char :=
  ((l.dropWhile (fun c => c = '-')).reverse.dropWhile (fun c => c = '-')).reverse

/-- Embedding of _normalize_component / norm_component on character lists. -/
def normalizeComponent (l : List Char) : List Char :=
  stripDash (collapseRuns (l.map lowerChar))

/-- String-level wrapper of the normalization. -/
def normComponentStr (s : String) : String :=
  String.mk (normalizeComponent s.data)

theorem collapseRuns_nil : collapseRuns [] = [] := by
  rw [collapseRuns]

theorem collapseRuns_cons_keep (c : Char) (rest : List Char)
    (h : isLowerAlnum c = true) :
    collapseRuns (c :: rest) = c :: collapseRuns rest := by
  rw [collapseRuns]
  simp [h]

theorem collapseRuns_cons_dash (c : Char) (rest : List Char)
    (h : isLowerAlnum c = false) :
    collapseRuns (c :: rest)
      = '-' :: collapseRuns (rest.dropWhile (fun d => !isLowerAlnum d)) := by
  rw [collapseRuns]
  simp [h]

theorem dash_not_lowerAlnum : isLowerAlnum '-' = false := by decide

/-- Every character of the collapsed output is in [a-z0-9] or a hyphen. -/
theorem collapseRuns_alphabet (l : List Char) :
    ∀ c ∈ collapseRuns l, isLowerAlnum c = true ∨ c = '-' := by
  induction l using collapseRuns.induct with
  | case1 => simp [collapseRuns_nil]
  | case2 c rest h ih =>
    rw [collapseRuns_cons_keep c rest h]
    intro x hx
    rcases List.mem_cons.mp hx with hx | hx
    · exact Or.inl (hx ▸ h)
    · exact ih x hx
  | case3 c rest h ih =>
    rw [collapseRuns_cons_dash c rest (by simpa using h)]
    intro x hx
    rcases List.mem_cons.mp hx with hx | hx
    · exact Or.inr hx
    · exact ih x hx

/-- Hyphen-adjacency predicate: no two consecutive hyphens. -/
def NoDD (l : List Char) : Prop :=
  List.Chain' (fun a b => ¬(a = '-' ∧ b = '-')) l

theorem not_dash_of_lowerAlnum {c : Char} (h : isLowerAlnum c = true) :
    c ≠ '-' := by
  intro hc
  subst hc
  simp [isLowerAlnum] at h

/-- The collapsed output never contains two consecutive hyphens. -/
theorem collapseRuns_noDD (l : List Char) : NoDD (collapseRuns l) := by
  induction l using collapseRuns.induct with
  | case1 => simp [NoDD, collapseRuns_nil]
  | case2 c rest h ih =>
    rw [NoDD, collapseRuns_cons_keep c rest h, List.chain'_cons']
    exact ⟨fun b _ hb => absurd hb.1 (not_dash_of_lowerAlnum h), ih⟩
  | case3 c rest h ih =>
    rw [NoDD, collapseRuns_cons_dash c rest (by simpa using h), List.chain'_cons']
    refine ⟨?_, ih⟩
    intro b hb hcon
    cases hX : rest.dropWhile (fun d => !isLowerAlnum d) with
    | nil =>
      rw [hX, collapseRuns_nil] at hb
      simp at hb
    | cons d t =>
      have hq0 := List.head?_dropWhile_not (fun d => !isLowerAlnum d) rest
      rw [hX] at hq0
      have hda : isLowerAlnum d = true := by simpa using hq0
      rw [hX, collapseRuns_cons_keep d t hda] at hb
      simp only [List.head?_cons, Option.mem_def, Option.some.injEq] at hb
      subst hb
      exact not_dash_of_lowerAlnum hda hcon.2

/-- Running the collapsing substitution on an already-collapsed string is the
identity: it only maps single hyphens back to single hyphens. -/
theorem collapseRuns_id (l : List Char)
    (halpha : ∀ c ∈ l, isLowerAlnum c = true ∨ c = '-')
    (hdd : NoDD l) : collapseRuns l = l := by
  induction l with
  | nil => exact collapseRuns_nil
  | cons c rest ih =>
    rcases halpha c (List.mem_cons_self c rest) with h | rfl
    · rw [collapseRuns_cons_keep c rest h]
      rw [ih (fun x hx => halpha x (List.mem_cons_of_mem _ hx)) hdd.tail]
    · rw [collapseRuns_cons_dash '-' rest dash_not_lowerAlnum]
      cases rest with
      | nil => simp [collapseRuns_nil]
      | cons d t =>
        have hd : d ≠ '-' := by
          have := (List.chain'_cons'.mp hdd).1 d (by simp)
          intro hdash
          exact this ⟨rfl, hdash⟩
        have hda : isLowerAlnum d = true := by
          rcases halpha d (by simp) with h | h
          · exact h
          · exact absurd h hd
        have hdrop : (d :: t).dropWhile (fun x => !isLowerAlnum x) = d :: t := by
          rw [List.dropWhile_cons]
          simp [hda]
        rw [hdrop, ih (fun x hx => halpha x (List.mem_cons_of_mem _ hx)) hdd.tail]

theorem noDD_suffix {l₁ l₂ : List Char} (h : l₁ <:+ l₂) (hdd : NoDD l₂) :
    NoDD l₁ := by
  obtain ⟨t, rfl⟩ := h
  exact (List.chain'_append.mp hdd).2.1

theorem noDD_reverse {l : List Char} (hdd : NoDD l) : NoDD l.reverse := by
  rw [NoDD, List.chain'_reverse]
  exact hdd.imp (fun a b hab h => hab ⟨h.2, h.1⟩)

theorem noDD_stripDash {l : List Char} (hdd : NoDD l) : NoDD (stripDash l) := by
  unfold stripDash
  exact noDD_reverse (noDD_suffix (List.dropWhile_suffix _) (noDD_reverse
    (noDD_suffix (List.dropWhile_suffix _) hdd)))

theorem mem_stripDash {c : Char} {l : List Char} (h : c ∈ stripDash l) :
    c ∈ l := by
  unfold stripDash at h
  rw [List.mem_reverse] at h
  have h2 := (List.dropWhile_sublist _).mem h
  rw [List.mem_reverse] at h2
  exact (List.dropWhile_sublist _).mem h2

theorem stripDash_head (l : List Char) : (stripDash l).head? ≠ some '-' := by
  unfold stripDash
  intro hcon
  set A := l.dropWhile (fun c => c = '-') with hA
  set Z := A.reverse.dropWhile (fun c => c = '-') with hZ
  rw [List.head?_reverse] at hcon
  have hZne : Z ≠ [] := by
    intro h
    rw [h] at hcon
    simp at hcon
  obtain ⟨t, ht⟩ := List.dropWhile_suffix (l := A.reverse) (fun c => c = '-')
  rw [← hZ] at ht
  have hlast : Z.getLast? = A.reverse.getLast? := by
    rw [← ht]
    exact (List.getLast?_append_of_ne_nil _ hZne).symm
  rw [hlast, List.getLast?_reverse] at hcon
  have := List.head?_dropWhile_not (fun c => c = '-') l
  rw [← hA, hcon] at this
  simp at this

theorem stripDash_getLast (l : List Char) :
    (stripDash l).getLast? ≠ some '-' := by
  unfold stripDash
  intro hcon
  rw [List.getLast?_reverse] at hcon
  have := List.head?_dropWhile_not (fun c => c = '-') (l.dropWhile (fun c => c = '-')).reverse
  rw [hcon] at this
  simp at this

theorem dropWhile_eq_self_of_head {p : Char → Bool} {l : List Char}
    (h : ∀ c, l.head? = some c → p c = false) :
    l.dropWhile p = l := by
  cases l with
  | nil => rfl
  | cons c t =>
    rw [List.dropWhile_cons]
    simp [h c rfl]

theorem stripDash_id (l : List Char) (h1 : l.head? ≠ some '-')
    (h2 : l.getLast? ≠ some '-') : stripDash l = l := by
  have hin : l.dropWhile (fun c => c = '-') = l :=
    dropWhile_eq_self_of_head (fun c hc => by
      simp only [decide_eq_false_iff_not]
      intro hd
      exact h1 (by rw [hc, hd]))
  have hout : l.reverse.dropWhile (fun c => c = '-') = l.reverse :=
    dropWhile_eq_self_of_head (fun c hc => by
      rw [List.head?_reverse] at hc
      simp only [decide_eq_false_iff_not]
      intro hd
      exact h2 (by rw [hc, hd]))
  unfold stripDash
  rw [hin, hout, List.reverse_reverse]

theorem stripDash_idem (l : List Char) :
    stripDash (stripDash l) = stripDash l :=
  stripDash_id _ (stripDash_head l) (stripDash_getLast l)

theorem lowerChar_id {c : Char} (h : isLowerAlnum c = true ∨ c = '-') :
    lowerChar c = c := by
  rcases h with h | rfl
  · unfold lowerChar
    unfold isLowerAlnum at h
    simp only [Bool.or_eq_true, Bool.and_eq_true, decide_eq_true_eq] at h
    have : ¬(65 ≤ c.toNat ∧ c.toNat ≤ 90) := by omega
    simp only [Bool.and_eq_true, decide_eq_true_eq]
    rw [if_neg this]
  · decide

theorem normalizeComponent_alphabet (l : List Char) :
    ∀ c ∈ normalizeComponent l, isLowerAlnum c = true ∨ c = '-' :=
  fun c hc => collapseRuns_alphabet _ c (mem_stripDash hc)

theorem map_lowerChar_id (l : List Char)
    (h : ∀ c ∈ l, isLowerAlnum c = true ∨ c = '-') :
    l.map lowerChar = l := by
  induction l with
  | nil => rfl
  | cons c t ih =>
    simp only [List.map_cons]
    rw [lowerChar_id (h c (by simp)),
        ih (fun x hx => h x (List.mem_cons_of_mem _ hx))]

/-- Normalization is idempotent. -/
theorem normalizeComponent_idem (l : List Char) :
    normalizeComponent (normalizeComponent l) = normalizeComponent l := by
  have hdd : NoDD (normalizeComponent l) :=
    noDD_stripDash (collapseRuns_noDD _)
  conv_lhs => rw [normalizeComponent]
  rw [map_lowerChar_id _ (normalizeComponent_alphabet l),
      collapseRuns_id _ (normalizeComponent_alphabet l) hdd]
  exact stripDash_idem (collapseRuns (l.map lowerChar))

/-- Structural single-pass twin of collapseRuns, used for concrete
evaluation; the flag records whether the scanner is inside a run of
disallowed characters whose hyphen was already emitted. -/
def collapseGo : Bool → List Char → List Char
  | _, [] => []
  | inRun, c :: rest =>
    if isLowerAlnum c then c :: collapseGo false rest
    else if inRun then collapseGo true rest
    else '-' :: collapseGo true rest

theorem collapseGo_eq_collapseRuns (l : List Char) :
    collapseGo false l = collapseRuns l
    ∧ collapseGo true l
        = collapseRuns (l.dropWhile (fun d => !isLowerAlnum d)) := by
  induction l with
  | nil => exact ⟨collapseRuns_nil.symm, collapseRuns_nil.symm⟩
  | cons c rest ih =>
    by_cases h : isLowerAlnum c = true
    · constructor
      · rw [collapseGo, if_pos h, ih.1, collapseRuns_cons_keep c rest h]
      · rw [List.dropWhile_cons]
        simp only [h, Bool.not_true, Bool.false_eq_true, if_false]
        rw [collapseGo, if_pos h, ih.1, collapseRuns_cons_keep c rest h]
    · have hb : isLowerAlnum c = false := by simpa using h
      constructor
      · rw [collapseGo, if_neg h, if_neg (by simp), ih.2,
            collapseRuns_cons_dash c rest hb]
      · rw [List.dropWhile_cons]
        simp only [hb, Bool.not_false, if_true]
        rw [collapseGo, if_neg h, if_pos rfl, ih.2]

theorem normComponentStr_example :
    normComponentStr ("My Project!!") = ("my-project") := by
  show String.mk (stripDash (collapseRuns ((("My Project!!").data).map lowerChar)))
      = ("my-project")
  rw [← (collapseGo_eq_collapseRuns _).1]
  decide

/-- C3: component normalization (publisher.py _normalize_component,
aptly_publish.py norm_component) is idempotent; its output contains only
lowercase alphanumerics and hyphens, with runs of other characters collapsed
to a single hyphen (hence never two consecutive hyphens) and leading and
trailing hyphens trimmed; and normalizing "My Project!!" gives "my-project". -/
theorem normalize_component_idempotent_and_shape (s : String) :
    normComponentStr (normComponentStr s) = normComponentStr s
    ∧ (∀ c ∈ (normComponentStr s).data, isLowerAlnum c = true ∨ c = '-')
    ∧ NoDD (normComponentStr s).data
    ∧ (normComponentStr s).data.head? ≠ some '-'
    ∧ (normComponentStr s).data.getLast? ≠ some '-'
    ∧ normComponentStr ("My Project!!") = ("my-project") := by
  refine ⟨?_, ?_, ?_, ?_, ?_, normComponentStr_example⟩
  · show String.mk (normalizeComponent (normalizeComponent s.data))
        = String.mk (normalizeComponent s.data)
    rw [normalizeComponent_idem]
  · exact normalizeComponent_alphabet s.data
  · exact noDD_stripDash (collapseRuns_noDD _)
  · exact stripDash_head _
  · exact stripDash_getLast _

/-- Witness for the normalization claim at the concrete input of the spec. -/
theorem normalize_component_idempotent_and_shape_witness :
    normComponentStr (normComponentStr ("My Project!!"))
      = normComponentStr ("My Project!!") :=
  (normalize_component_idempotent_and_shape ("My Project!!")).1

/-! ## Pre-release detection

Embedding of AptlyCleaner.PRERELEASE_PATTERNS (cleaner.py lines 156-171) and
AptlyCleaner.is_prerelease (cleaner.py lines 199-201).  The source joins the
fixed pattern list with the regex alternation bar and searches the version
string case-insensitively; a search succeeds iff some pattern matches at some
position.  Each pattern is of the form: a literal, optionally followed by a
minimum number of digits (a trailing digit-star imposes no minimum, a
digit-plus imposes one, the eight-fold digit class of the git date imposes
eight).  Case-insensitivity is modelled by lowercasing the subject first; the
pattern literals are already lowercase. -/

/-- Generic check that pat occurs at the front of s. -/
def leadsWith {α : Type} [DecidableEq α] : List α → List α → Bool
  | [], _ => true
  | _ :: _, [] => false
  | p :: ps, c :: cs => p = c && leadsWith ps cs

/-- Digit test on a character. -/
def isDigitCh (c : Char) : Bool := 48 ≤ c.toNat && c.toNat ≤ 57

/-- Number of leading digit characters. -/
def leadDigits : List Char → Nat
  | [] => 0
  | c :: cs => if isDigitCh c then 1 + leadDigits cs else 0

/-- Regex search for a literal followed by at least minD digits. -/
def searchLitDigits (pat : List Char) (minD : Nat) : List Char → Bool
  | [] => leadsWith pat [] && minD = 0
  | c :: cs =>
    (leadsWith pat (c :: cs) && minD ≤ leadDigits ((c :: cs).drop pat.length))
      || searchLitDigits pat minD cs

/-- Plain substring search, the case of a pattern with a trailing digit-star
or no digit class at all. -/
def searchLit (pat : List Char) (s : List Char) : Bool :=
  searchLitDigits pat 0 s

/-- Embedding of AptlyCleaner.is_prerelease: true iff the version matches one
of the fixed Debian pre-release conventions, case-insensitively. -/
def is_prerelease (v : String) : Bool :=
  let s := v.data.map lowerChar
  searchLit (("~alpha").data) s || searchLit (("~beta").data) s
    || searchLit (("~rc").data) s || searchLit (("~pre").data) s
    || searchLit (("~dev").data) s || searchLit (("~git").data) s
    || searchLit (("~svn").data) s || searchLit (("~bzr").data) s
    || searchLitDigits (("+git").data) 8 s || searchLitDigits (("+svn").data) 1 s
    || searchLitDigits (("alpha").data) 1 s || searchLitDigits (("beta").data) 1 s
    || searchLitDigits (("rc").data) 1 s || searchLit ((".0~").data) s

/-- C8: the pre-release predicate classifies "1.2.0~beta3" and
"2.0+git20240101" as pre-releases, and "1.2.0" and "2.0-1ubuntu1" as not. -/
theorem is_prerelease_examples :
    is_prerelease ("1.2.0~beta3") = true
    ∧ is_prerelease ("2.0+git20240101") = true
    ∧ is_prerelease ("1.2.0") = false
    ∧ is_prerelease ("2.0-1ubuntu1") = false := by
  decide

/-! ## Debian version comparison

cleaner.py DebianVersionCompare.compare (lines 112-149) shells out to
dpkg --compare-versions when dpkg is on PATH and falls back to plain string
comparison when it is not.  The dpkg algorithm itself is external to the
repository, so it is modelled from the spec boundary description: epoch
compared numerically, then upstream and revision compared by alternating
non-digit/digit segments where tilde sorts before everything (end of string
included), digits compare numerically, letters sort before non-letters. -/

/-- Modelled from the spec: the dpkg character weight for non-digit segment
comparison (tilde below everything, letters by code point, other characters
shifted above all letters). -/
def cOrder (c : Char) : Int :=
  if c = '~' then -1
  else if isDigitCh c then 0
  else if (65 ≤ c.toNat && c.toNat ≤ 90) || (97 ≤ c.toNat && c.toNat ≤ 122) then
    (c.toNat : Int)
  else (c.toNat : Int) + 256

/-- Modelled from the spec: comparison of two non-digit segments, end of
string weighing 0 so that a tilde sorts before the end of the string. -/
def cmpND : List Char → List Char → Ordering
  | [], [] => Ordering.eq
  | [], y :: _ => if cOrder y < 0 then Ordering.gt else Ordering.lt
  | x :: _, [] => if cOrder x < 0 then Ordering.lt else Ordering.gt
  | x :: xs, y :: ys =>
    if cOrder x < cOrder y then Ordering.lt
    else if cOrder y < cOrder x then Ordering.gt
    else cmpND xs ys

/-- Numeric value of a digit run. -/
def natOfDigits (l : List Char) : Nat :=
  l.foldl (fun n c => 10 * n + (c.toNat - 48)) 0

/-- Modelled from the spec: the dpkg segment loop, alternating a non-digit
segment comparison and a numeric digit segment comparison.  Fuel bounds the
number of loop rounds; the wrapper passes enough fuel for the loop to run to
the end of both strings. -/
def verrevcmpF : Nat → List Char → List Char → Ordering
  | 0, _, _ => Ordering.eq
  | _, [], [] => Ordering.eq
  | fuel+1, a, b =>
    let aN := a.takeWhile (fun c => !isDigitCh c)
    let bN := b.takeWhile (fun c => !isDigitCh c)
    match cmpND aN bN with
    | Ordering.lt => Ordering.lt
    | Ordering.gt => Ordering.gt
    | Ordering.eq =>
      let a1 := a.dropWhile (fun c => !isDigitCh c)
      let b1 := b.dropWhile (fun c => !isDigitCh c)
      let aD := natOfDigits (a1.takeWhile isDigitCh)
      let bD := natOfDigits (b1.takeWhile isDigitCh)
      if aD < bD then Ordering.lt
      else if bD < aD then Ordering.gt
      else verrevcmpF fuel (a1.dropWhile isDigitCh) (b1.dropWhile isDigitCh)

def verrevcmp (a b : List Char) : Ordering :=
  verrevcmpF (a.length + b.length + 1) a b

/-- Split off a numeric epoch at the first colon (0 when absent). -/
def splitEpoch (v : List Char) : Nat × List Char :=
  if ':' ∈ v then
    (natOfDigits (v.takeWhile (fun c => c ≠ ':')),
     (v.dropWhile (fun c => c ≠ ':')).drop 1)
  else (0, v)

/-- Split upstream version and Debian revision at the last hyphen (empty
revision when absent). -/
def splitRev (v : List Char) : List Char × List Char :=
  if '-' ∈ v then
    (((v.reverse.dropWhile (fun c => c ≠ '-')).drop 1).reverse,
     (v.reverse.takeWhile (fun c => c ≠ '-')).reverse)
  else (v, [])

/-- Modelled from the spec: full Debian version comparison as dpkg performs
it (epoch numerically, then upstream, then revision). -/
def debVerCompare (v1 v2 : String) : Ordering :=
  let e1 := splitEpoch v1.data
  let e2 := splitEpoch v2.data
  if e1.1 < e2.1 then Ordering.lt
  else if e2.1 < e1.1 then Ordering.gt
  else
    let u1 := splitRev e1.2
    let u2 := splitRev e2.2
    match verrevcmp u1.1 u2.1 with
    | Ordering.lt => Ordering.lt
    | Ordering.gt => Ordering.gt
    | Ordering.eq => verrevcmp u1.2 u2.2

/-- Lexicographic code-point comparison of character lists, the semantics
of the Python string less-than operator. -/
def strLtCh : List Char → List Char → Bool
  | [], [] => false
  | [], _ :: _ => true
  | _ :: _, [] => false
  | a :: as, b :: bs =>
    if a.toNat < b.toNat then true
    else if b.toNat < a.toNat then false
    else strLtCh as bs

/-- Embedding of DebianVersionCompare.compare (cleaner.py lines 116-142):
dpkg ordering when dpkg is available, plain string comparison otherwise. -/
def compareVersions (dpkgAvail : Bool) (v1 v2 : String) : Int :=
  if dpkgAvail then
    match debVerCompare v1 v2 with
    | Ordering.lt => -1
    | Ordering.gt => 1
    | Ordering.eq => 0
  else if strLtCh v1.data v2.data then -1
  else if strLtCh v2.data v1.data then 1
  else 0

/-- Stable descending insertion step: x is placed before the first element
it compares strictly greater than, so elements that compare equal keep
their original relative order, as with the stable Python sort. -/
def insertDescBy (cmp : String → String → Int) (x : String) :
    List String → List String
  | [] => [x]
  | y :: ys => if 0 < cmp x y then x :: y :: ys else y :: insertDescBy cmp x ys

/-- Embedding of DebianVersionCompare.sort_versions(versions, reverse=True)
(cleaner.py lines 144-149), as a stable descending sort. -/
def sortVersionsDesc (dpkgAvail : Bool) (l : List String) : List String :=
  l.foldl (fun acc x => insertDescBy (compareVersions dpkgAvail) x acc) []

/-! ## Retention data model and candidate classification

Embedding of PackageInfo, RetentionPolicy and
AptlyCleaner.find_cleanup_candidates (cleaner.py lines 88-109, 20-74 and
268-349).  PackageInfo equality in the source compares only the path
(PackageInfo.__eq__), which is why the membership test in the version-limit
pass is modelled as a path comparison.  The protected-package regex matching
is abstracted as a predicate on package names, which is all the claims
need of it. -/

structure PackageInfo where
  name : String
  version : String
  arch : String
  filename : String
  path : List String
  channel : String
  component : String
  size : Nat
  ageDays : Nat
  isPrerelease : Bool
deriving DecidableEq

structure ChannelPolicy where
  keepPrereleases : Option Bool
  maxVersions : Option Nat
  maxAgeDays : Option Nat
deriving DecidableEq

structure RetentionPolicy where
  prereleaseMaxAgeDays : Nat
  maxVersionsPerPackage : Nat
  channelPolicies : List (String × ChannelPolicy)
  protectedComponents : List String
  protectedPkg : String → Bool

/-- Default channel policies of RetentionPolicy (cleaner.py lines 31-47). -/
def defaultChannelPolicies : List (String × ChannelPolicy) :=
  [("stable", ⟨some true, some 0, none⟩),
   ("testing", ⟨some false, some 5, none⟩),
   ("pr", ⟨some false, some 3, some 30⟩)]

/-- Default RetentionPolicy (cleaner.py lines 20-53). -/
def defaultPolicy : RetentionPolicy :=
  ⟨90, 0, defaultChannelPolicies, [], fun _ => false⟩

/-- Grouping key (channel, component, name, arch) of cleaner.py line 292. -/
def pkey (p : PackageInfo) : String × String × String × String :=
  (p.channel, p.component, p.name, p.arch)

/-- Keys in order of first occurrence, the iteration order of the Python
defaultdict built at cleaner.py lines 290-293. -/
def firstKeys (ks : List (String × String × String × String)) :
    List (String × String × String × String) :=
  ks.foldl (fun acc k => if k ∈ acc then acc else acc ++ [k]) []

/-- The group of a key, in input order. -/
def groupOf (pkgs : List PackageInfo) (k : String × String × String × String) :
    List PackageInfo :=
  pkgs.filter (fun p => decide (pkey p = k))

/-- The version_to_pkg dictionary lookup (cleaner.py line 329): a Python
dict comprehension keeps the last entry for a repeated version. -/
def versionPick (g : List PackageInfo) (v : String) : Option PackageInfo :=
  (g.filter (fun p => decide (p.version = v))).getLast?

/-- The sorted group (cleaner.py lines 323-332): versions sorted descending
with the Debian comparator (string comparison when dpkg is unavailable),
mapped back through version_to_pkg.  The initial plain string sort at line
324 is dead, because the try block never raises: compare catches the
missing-dpkg error itself. -/
def sortGroupDesc (dpkgAvail : Bool) (g : List PackageInfo) :
    List PackageInfo :=
  (sortVersionsDesc dpkgAvail (g.map (fun p => p.version))).filterMap
    (versionPick g)

/-- One iteration of the group loop of find_cleanup_candidates
(cleaner.py lines 295-341), acting on the accumulated candidate pair. -/
def groupStep (pol : RetentionPolicy) (dpkgAvail : Bool)
    (acc : List PackageInfo × List PackageInfo)
    (k : String × String × String × String) (g : List PackageInfo) :
    List PackageInfo × List PackageInfo :=
  let cp := (pol.channelPolicies.lookup k.1).getD ⟨none, none, none⟩
  let keepPre := cp.keepPrereleases.getD true
  let maxV := cp.maxVersions.getD pol.maxVersionsPerPackage
  let maxAge := cp.maxAgeDays.getD pol.prereleaseMaxAgeDays
  if k.2.1 ∈ pol.protectedComponents then acc
  else if pol.protectedPkg k.2.2.1 then acc
  else
    let pre1 := acc.1 ++ (if keepPre then []
      else g.filter (fun p => p.isPrerelease && decide (maxAge < p.ageDays)))
    let vl1 :=
      if 0 < maxV ∧ maxV < g.length then
        acc.2 ++ ((sortGroupDesc dpkgAvail g).drop maxV).filter
          (fun p => pre1.all (fun q => !decide (q.path = p.path)))
      else acc.2
    (pre1, vl1)

/-- Embedding of AptlyCleaner.find_cleanup_candidates (cleaner.py lines
268-349) on a pre-scanned package list: returns the pair
(prerelease_candidates, version_limit_candidates). -/
def find_cleanup_candidates (pol : RetentionPolicy) (dpkgAvail : Bool)
    (packages : List PackageInfo) :
    List PackageInfo × List PackageInfo :=
  (firstKeys (packages.map pkey)).foldl
    (fun acc k => groupStep pol dpkgAvail acc k (groupOf packages k)) ([], [])

/-- Concrete scenario for the version-excess claim: five versions of the
same package foo on amd64, pr channel (policy max_versions = 3), all
freshly built (age 0) so the age-based pre-release pass flags nothing. -/
def pkgOf (v : String) : PackageInfo :=
  { name := "foo", version := v, arch := "amd64",
    filename := "foo_" ++ v ++ "_amd64.deb",
    path := ["pr", "pool", "main", "f", "foo", "foo_" ++ v ++ "_amd64.deb"],
    channel := "pr", component := "main", size := 1000, ageDays := 0,
    isPrerelease := is_prerelease v }

/-- The scanned group, deliberately out of order so that the classification
has to sort: 1.2, 2.0, 1.0, 2.0~beta1, 1.10. -/
def groupC7 : List PackageInfo :=
  [pkgOf ("1.2"), pkgOf ("2.0"), pkgOf ("1.0"),
   pkgOf ("2.0~beta1"), pkgOf ("1.10")]

/-- C7: with the pr channel policy (max_versions = 3) and five versions of
one package/arch/component/channel, the classification flags exactly the two
oldest by Debian version order (2.0 > 2.0~beta1 > 1.10 > 1.2 > 1.0, so 1.2
and 1.0), keeping the newest three; under the string fallback (dpkg
unavailable) the order degrades to lexicographic and 1.10 is flagged
instead of 1.2. -/
theorem version_excess_flags_two_oldest :
    find_cleanup_candidates defaultPolicy true groupC7
      = ([], [pkgOf ("1.2"), pkgOf ("1.0")])
    ∧ find_cleanup_candidates defaultPolicy false groupC7
      = ([], [pkgOf ("1.10"), pkgOf ("1.0")]) := by
  constructor
  · rfl
  · decide

/-! ## Disjointness of the two candidate lists -/

theorem getLastMem {α : Type} {l : List α} {a : α}
    (h : l.getLast? = some a) : a ∈ l := by
  obtain ⟨hne, rfl⟩ :=
    List.mem_getLast?_eq_getLast (show a ∈ l.getLast? from h)
  exact List.getLast_mem hne

theorem mem_groupOf {pkgs : List PackageInfo}
    {k : String × String × String × String} {q : PackageInfo}
    (h : q ∈ groupOf pkgs k) : q ∈ pkgs ∧ pkey q = k := by
  unfold groupOf at h
  rcases List.mem_filter.mp h with ⟨h1, h2⟩
  exact ⟨h1, by simpa using h2⟩

theorem mem_sortGroupDesc {davail : Bool} {g : List PackageInfo}
    {q : PackageInfo} (h : q ∈ sortGroupDesc davail g) : q ∈ g := by
  unfold sortGroupDesc at h
  rcases List.mem_filterMap.mp h with ⟨v, _, hpick⟩
  unfold versionPick at hpick
  exact (List.filter_sublist g).subset (getLastMem hpick)

/-- Injectivity of the path field over a list whose paths are distinct. -/
theorem path_inj {l : List PackageInfo}
    (h : (l.map (fun p => p.path)).Nodup) {a b : PackageInfo}
    (ha : a ∈ l) (hb : b ∈ l) (hp : a.path = b.path) : a = b := by
  induction l with
  | nil => cases ha
  | cons x t ih =>
    rw [List.map_cons, List.nodup_cons] at h
    rcases List.mem_cons.mp ha with rfl | ha2
    · rcases List.mem_cons.mp hb with rfl | hb2
      · rfl
      · exact absurd (show a.path ∈ t.map (fun p => p.path) by
          rw [hp]; exact List.mem_map_of_mem _ hb2) h.1
    · rcases List.mem_cons.mp hb with rfl | hb2
      · exact absurd (show b.path ∈ t.map (fun p => p.path) by
          rw [← hp]; exact List.mem_map_of_mem _ ha2) h.1
      · exact ih h.2 ha2 hb2

/-- Shape of one group-loop iteration: it only appends, the appended
pre-release candidates come from the group, and every appended version-limit
candidate comes from the group and differs in path from the whole pre-release
accumulator at that point. -/
theorem groupStep_shape (pol : RetentionPolicy) (davail : Bool)
    (acc : List PackageInfo × List PackageInfo)
    (k : String × String × String × String) (g : List PackageInfo) :
    ∃ preNew vlNew,
      groupStep pol davail acc k g = (acc.1 ++ preNew, acc.2 ++ vlNew)
      ∧ (∀ x ∈ preNew, x ∈ g)
      ∧ (∀ x ∈ vlNew, x ∈ g ∧ ∀ r ∈ acc.1 ++ preNew, r.path ≠ x.path) := by
  unfold groupStep
  by_cases h1 : k.2.1 ∈ pol.protectedComponents
  · exact ⟨[], [], by simp [h1], by simp, by simp⟩
  · by_cases h2 : pol.protectedPkg k.2.2.1 = true
    · refine ⟨[], [], ?_, by simp, by simp⟩
      simp [h1, h2]
    · rw [if_neg h1, if_neg h2]
      set cp := (pol.channelPolicies.lookup k.1).getD ⟨none, none, none⟩ with hcp
      set preNew := (if cp.keepPrereleases.getD true = true then []
        else g.filter
          (fun p => p.isPrerelease
            && decide (cp.maxAgeDays.getD pol.prereleaseMaxAgeDays < p.ageDays)))
        with hpreNew
      have hpreSub : ∀ x ∈ preNew, x ∈ g := by
        intro x hx
        rw [hpreNew] at hx
        split at hx
        · cases hx
        · exact (List.filter_sublist g).subset hx
      by_cases h3 : 0 < cp.maxVersions.getD pol.maxVersionsPerPackage
          ∧ cp.maxVersions.getD pol.maxVersionsPerPackage < g.length
      · refine ⟨preNew,
          ((sortGroupDesc davail g).drop
            (cp.maxVersions.getD pol.maxVersionsPerPackage)).filter
            (fun p => (acc.1 ++ preNew).all (fun q => !decide (q.path = p.path))),
          ?_, hpreSub, ?_⟩
        · simp only [if_pos h3]
        · intro x hx
          rcases List.mem_filter.mp hx with ⟨hx1, hx2⟩
          refine ⟨mem_sortGroupDesc ((List.drop_sublist _ _).subset hx1), ?_⟩
          intro r hr
          have := List.all_eq_true.mp hx2 r hr
          simpa using this
      · refine ⟨preNew, [], ?_, hpreSub, by simp⟩
        simp only [if_neg h3, List.append_nil]

/-- The firstKeys list never repeats a key. -/
theorem firstKeys_nodup (ks : List (String × String × String × String)) :
    (firstKeys ks).Nodup := by
  unfold firstKeys
  have : ∀ acc : List (String × String × String × String), acc.Nodup →
      (ks.foldl (fun acc k => if k ∈ acc then acc else acc ++ [k]) acc).Nodup := by
    induction ks with
    | nil => exact fun acc h => h
    | cons k t ih =>
      intro acc hacc
      rw [List.foldl_cons]
      by_cases hk : k ∈ acc
      · rw [if_pos hk]
        exact ih acc hacc
      · rw [if_neg hk]
        exact ih _ (by simp [List.nodup_append, hacc, hk])
  exact this [] List.nodup_nil

/-- Invariant carried along the group fold: accumulated pre-release
candidates are scanned packages; accumulated version-limit candidates are
scanned packages whose keys are not among the keys still to process, and
their paths avoid all accumulated pre-release candidates. -/
theorem foldl_groupStep_disjoint (pol : RetentionPolicy) (davail : Bool)
    (pkgs : List PackageInfo)
    (hnd : (pkgs.map (fun p => p.path)).Nodup) :
    ∀ ks : List (String × String × String × String), ks.Nodup →
    ∀ acc : List PackageInfo × List PackageInfo,
    (∀ p ∈ acc.1, p ∈ pkgs) →
    (∀ q ∈ acc.2, q ∈ pkgs ∧ pkey q ∉ ks ∧ ∀ p ∈ acc.1, p.path ≠ q.path) →
    ∀ q ∈ (ks.foldl
        (fun a k => groupStep pol davail a k (groupOf pkgs k)) acc).2,
    ∀ p ∈ (ks.foldl
        (fun a k => groupStep pol davail a k (groupOf pkgs k)) acc).1,
      p.path ≠ q.path := by
  intro ks
  induction ks with
  | nil =>
    intro _ acc _ hvl q hq p hp
    exact (hvl q hq).2.2 p hp
  | cons k t ih =>
    intro hks acc hpre hvl
    rw [List.foldl_cons]
    obtain ⟨preNew, vlNew, heq, hpreSub, hvlNew⟩ :=
      groupStep_shape pol davail acc k (groupOf pkgs k)
    rw [heq]
    rw [List.nodup_cons] at hks
    refine ih hks.2 _ ?_ ?_
    · intro p hp
      rcases List.mem_append.mp hp with hp | hp
      · exact hpre p hp
      · exact (mem_groupOf (hpreSub p hp)).1
    · intro q hq
      rcases List.mem_append.mp hq with hq | hq
      · obtain ⟨hq1, hq2, hq3⟩ := hvl q hq
        refine ⟨hq1, fun hcon => hq2 (List.mem_cons_of_mem k hcon), ?_⟩
        intro p hp
        rcases List.mem_append.mp hp with hp | hp
        · exact hq3 p hp
        · obtain ⟨hpg, hpk⟩ := mem_groupOf (hpreSub p hp)
          intro hcon
          have := path_inj hnd hpg hq1 hcon
          subst this
          exact hq2 (hpk ▸ List.mem_cons_self k t)
      · obtain ⟨hqg, hqpaths⟩ := hvlNew q hq
        obtain ⟨hq1, hqk⟩ := mem_groupOf hqg
        refine ⟨hq1, fun hcon => hks.1 (hqk ▸ hcon), ?_⟩
        exact fun p hp => hqpaths p hp

/-- C10: within one call of find_cleanup_candidates on a scanned package
set (all paths distinct), the two returned candidate lists are disjoint: no
package flagged as a pre-release candidate is also returned as a
version-limit candidate. -/
theorem find_cleanup_candidates_disjoint (pol : RetentionPolicy)
    (davail : Bool) (pkgs : List PackageInfo)
    (hnd : (pkgs.map (fun p => p.path)).Nodup) :
    ∀ p ∈ (find_cleanup_candidates pol davail pkgs).1,
    ∀ q ∈ (find_cleanup_candidates pol davail pkgs).2,
      p.path ≠ q.path := by
  intro p hp q hq
  exact foldl_groupStep_disjoint pol davail pkgs hnd
    (firstKeys (pkgs.map pkey)) (firstKeys_nodup _) ([], [])
    (by simp) (by simp) q hq p hp

/-- Testing-channel package used by the disjointness witness. -/
def pkgT (v : String) (age : Nat) : PackageInfo :=
  { name := "bar", version := v, arch := "amd64",
    filename := "bar_" ++ v ++ "_amd64.deb",
    path := ["testing", "pool", "main", "b", "bar", "bar_" ++ v ++ "_amd64.deb"],
    channel := "testing", component := "main", size := 1000, ageDays := age,
    isPrerelease := is_prerelease v }

/-- A testing-channel group producing one pre-release candidate (the old
9.9~rc1) and one version-limit candidate (the oldest of six versions). -/
def groupC10 : List PackageInfo :=
  [pkgT ("9.9~rc1") 120, pkgT ("1.0") 10, pkgT ("1.1") 10,
   pkgT ("1.2") 10, pkgT ("1.3") 10, pkgT ("1.4") 10]

/-- Witness for the disjointness claim: on the concrete testing-channel
group, the returned pre-release candidate and the returned version-limit
candidate have different paths. -/
theorem find_cleanup_candidates_disjoint_witness :
    (pkgT ("9.9~rc1") 120).path ≠ (pkgT ("1.0") 10).path :=
  find_cleanup_candidates_disjoint defaultPolicy true groupC10 (by decide)
    (pkgT ("9.9~rc1") 120) (by decide) (pkgT ("1.0") 10) (by decide)

/-! ## Cleanup: dry-run versus execute

Embedding of AptlyCleaner.cleanup (cleaner.py lines 390-446); the CLI wires
--dry-run as the default and --execute as its opposite (cli.py lines
493-504).  The filesystem is modelled as the list of file paths plus the
list of directory paths, a path being the list of its segments.  The
Python condition "self.repo_path in parent.parents" is the strict-ancestor
test, modelled with leadsWith (prefix) plus inequality. -/

abbrev FPath := List String

structure FileSys where
  files : List FPath
  dirs : List FPath
deriving DecidableEq

/-- The any(parent.iterdir()) check of cleaner.py line 427: the directory
has an immediate child file or child directory. -/
def dirHasEntry (st : FileSys) (d : FPath) : Bool :=
  st.files.any (fun f => decide (f.dropLast = d))
    || st.dirs.any (fun x => decide (x.dropLast = d))

/-- The ascending empty-directory removal loop (cleaner.py lines 424-434),
with fuel: climb from the parent of a deleted file, removing directories
that are empty, stopping at the repository root (never removing it), at a
non-empty directory, at a missing directory (the OSError break), or when
the walk leaves the root.  The wrapper passes enough fuel for the walk to
reach the filesystem root, so the fuel-exhausted branch is never taken. -/
def pruneUpF : Nat → FPath → FileSys → FPath → FileSys
  | 0, _, st, _ => st
  | fuel+1, root, st, parent =>
    if parent ≠ root ∧ leadsWith root parent = true ∧ root ≠ parent then
      if parent ∈ st.dirs then
        if dirHasEntry st parent then st
        else pruneUpF fuel root { st with dirs := st.dirs.erase parent }
          parent.dropLast
      else st
    else st

def pruneUp (root : FPath) (st : FileSys) (parent : FPath) : FileSys :=
  pruneUpF (parent.length + 1) root st parent

/-- One candidate deletion (cleaner.py lines 416-438): unlink the file when
present (a missing file raises, is recorded as a failure and triggers no
directory walk), then prune newly empty parents. -/
def deleteOne (root : FPath) (st : FileSys) (p : FPath) : FileSys :=
  if p ∈ st.files then
    pruneUp root { st with files := st.files.erase p } p.dropLast
  else st

/-- Embedding of the filesystem effect of AptlyCleaner.cleanup: dry-run
touches nothing; execute deletes each candidate and prunes empty parents. -/
def cleanupFS (root : FPath) (st : FileSys) (cands : List FPath)
    (dryRun : Bool) : FileSys :=
  if dryRun then st else cands.foldl (deleteOne root) st

theorem pruneUpF_files (fuel : Nat) (root : FPath) (st : FileSys)
    (parent : FPath) : (pruneUpF fuel root st parent).files = st.files := by
  induction fuel generalizing st parent with
  | zero => rfl
  | succ n ih =>
    rw [pruneUpF]
    split
    · split
      · split
        · rfl
        · exact ih _ _
      · rfl
    · rfl

theorem deleteOne_files (root : FPath) (st : FileSys) (p : FPath) :
    (deleteOne root st p).files
      = if p ∈ st.files then st.files.erase p else st.files := by
  unfold deleteOne
  split
  · exact pruneUpF_files _ _ _ _
  · rfl

theorem pruneUpF_dirs_root (fuel : Nat) (root : FPath) (st : FileSys)
    (parent : FPath) (h : root ∈ st.dirs) :
    root ∈ (pruneUpF fuel root st parent).dirs := by
  induction fuel generalizing st parent with
  | zero => exact h
  | succ n ih =>
    rw [pruneUpF]
    split
    · split
      · split
        · exact h
        · refine ih _ _ ?_
          show root ∈ st.dirs.erase parent
          rename_i hguard _ _
          exact (List.mem_erase_of_ne (fun hc => hguard.1 hc.symm)).mpr h
      · exact h
    · exact h

theorem pruneUpF_dirs_removed (fuel : Nat) (root : FPath) (st : FileSys)
    (parent : FPath) {d : FPath} (hd : d ∈ st.dirs)
    (hout : d ∉ (pruneUpF fuel root st parent).dirs) :
    leadsWith root d = true ∧ d ≠ root := by
  induction fuel generalizing st parent with
  | zero => exact absurd hd hout
  | succ n ih =>
    rw [pruneUpF] at hout
    split at hout
    · split at hout
      · split at hout
        · exact absurd hd hout
        · rename_i hguard _ _
          by_cases hdp : d = parent
          · subst hdp
            exact ⟨hguard.2.1, fun hc => hguard.1 hc⟩
          · exact ih { st with dirs := st.dirs.erase parent }
              parent.dropLast ((List.mem_erase_of_ne hdp).mpr hd) hout
      · exact absurd hd hout
    · exact absurd hd hout

theorem cleanupFS_exec_files (root : FPath) (cands : List FPath) :
    ∀ st : FileSys, st.files.Nodup →
    (cands.foldl (deleteOne root) st).files
      = st.files.filter (fun f => decide (f ∉ cands)) := by
  induction cands with
  | nil =>
    intro st _
    rw [List.foldl_nil]
    have : ∀ f : FPath, (decide (f ∉ ([] : List FPath))) = true := by simp
    rw [List.filter_eq_self.mpr (fun a _ => this a)]
  | cons c t ih =>
    intro st hnd
    rw [List.foldl_cons]
    have hfiles := deleteOne_files root st c
    by_cases hc : c ∈ st.files
    · rw [if_pos hc] at hfiles
      have hnd2 : (deleteOne root st c).files.Nodup := by
        rw [hfiles]
        exact hnd.erase c
      rw [ih _ hnd2, hfiles, List.Nodup.erase_eq_filter hnd,
          List.filter_filter]
      apply List.filter_congr
      intro f _
      by_cases h1 : f = c
      · subst h1
        simp
      · by_cases h2 : f ∈ t <;> simp [h1, h2]
    · rw [if_neg hc] at hfiles
      have hnd2 : (deleteOne root st c).files.Nodup := by
        rw [hfiles]
        exact hnd
      rw [ih _ hnd2, hfiles]
      apply List.filter_congr
      intro f hf
      have h1 : f ≠ c := fun hcon => hc (hcon ▸ hf)
      by_cases h2 : f ∈ t <;> simp [h1, h2]

theorem cleanupFS_exec_root (root : FPath) (cands : List FPath) :
    ∀ st : FileSys, root ∈ st.dirs →
    root ∈ (cands.foldl (deleteOne root) st).dirs := by
  induction cands with
  | nil => exact fun st h => h
  | cons c t ih =>
    intro st h
    rw [List.foldl_cons]
    refine ih _ ?_
    unfold deleteOne
    split
    · exact pruneUpF_dirs_root _ _ _ _ h
    · exact h

theorem deleteOne_dirs_removed (root : FPath) (st : FileSys) (p : FPath)
    {d : FPath} (hd : d ∈ st.dirs)
    (hout : d ∉ (deleteOne root st p).dirs) :
    leadsWith root d = true ∧ d ≠ root := by
  unfold deleteOne at hout
  split at hout
  · unfold pruneUp at hout
    exact pruneUpF_dirs_removed (p.dropLast.length + 1) root
      { st with files := st.files.erase p } p.dropLast hd hout
  · exact absurd hd hout

theorem cleanupFS_exec_dirs (root : FPath) (cands : List FPath) :
    ∀ st : FileSys, ∀ d ∈ st.dirs,
    d ∉ (cands.foldl (deleteOne root) st).dirs →
    leadsWith root d = true ∧ d ≠ root := by
  induction cands with
  | nil => exact fun st d hd hout => absurd hd hout
  | cons c t ih =>
    intro st d hd hout
    rw [List.foldl_cons] at hout
    by_cases hmid : d ∈ (deleteOne root st c).dirs
    · exact ih _ d hmid hout
    · exact deleteOne_dirs_removed root st c hd hmid

/-- Concrete repository for the cleanup scenario: one pool file whose
ancestor chain becomes empty after deletion, and one unrelated file. -/
def rootEx : FPath := ["repo"]

def stEx : FileSys :=
  { files := [["repo", "pool", "c", "f", "foo", "foo_1.deb"],
              ["repo", "other.txt"]],
    dirs := [["repo"], ["repo", "pool"], ["repo", "pool", "c"],
             ["repo", "pool", "c", "f"], ["repo", "pool", "c", "f", "foo"]] }

def candsEx : List FPath := [["repo", "pool", "c", "f", "foo", "foo_1.deb"]]

/-- C9: cleanup in dry-run mode changes nothing; in execute mode with the
same candidate set it deletes exactly the candidate files (no other file),
never removes the repository root, removes only directories strictly below
the root, and on the concrete repository it prunes the whole emptied pool
chain while keeping the root and the unrelated file. -/
theorem cleanup_dry_run_vs_execute (root : FPath) (st : FileSys)
    (cands : List FPath) (hnd : st.files.Nodup) :
    cleanupFS root st cands true = st
    ∧ (cleanupFS root st cands false).files
        = st.files.filter (fun f => decide (f ∉ cands))
    ∧ (root ∈ st.dirs → root ∈ (cleanupFS root st cands false).dirs)
    ∧ (∀ d ∈ st.dirs, d ∉ (cleanupFS root st cands false).dirs →
         leadsWith root d = true ∧ d ≠ root)
    ∧ cleanupFS rootEx stEx candsEx false
        = { files := [["repo", "other.txt"]], dirs := [["repo"]] }
    ∧ cleanupFS rootEx stEx candsEx true = stEx := by
  refine ⟨rfl, ?_, ?_, ?_, by decide, rfl⟩
  · show (cands.foldl (deleteOne root) st).files = _
    exact cleanupFS_exec_files root cands st hnd
  · show root ∈ st.dirs → root ∈ (cands.foldl (deleteOne root) st).dirs
    exact cleanupFS_exec_root root cands st
  · show ∀ d ∈ st.dirs, d ∉ (cands.foldl (deleteOne root) st).dirs → _
    exact cleanupFS_exec_dirs root cands st

/-- Witness for the cleanup claim at the concrete repository. -/
theorem cleanup_dry_run_vs_execute_witness :
    cleanupFS rootEx stEx candsEx true = stEx :=
  (cleanup_dry_run_vs_execute rootEx stEx candsEx (by decide)).1

/-! ## Publication reconciliation

Embedding of the reconciliation slice of AptlyPublisher.publish
(publisher.py lines 242-343) and of the corresponding block of
scripts/aptly_publish.py (lines 202-261).  The publication state inspected
beforehand (does the publication exist, which components does its release
index list) is an input; the aptly engine is driven through commands whose
argv is rendered exactly as the source builds it, and whose effect on the
publication is modelled from the spec boundary.  Exit codes of the engine
commands are an oracle parameter. -/

structure Cfg where
  component : String
  distro : String
  channel : String
  sign : Bool
  keyid : String
  passphrase : Option String
  snap : String
deriving DecidableEq

/-- The sign_opts list (publisher.py lines 244-250): gpg key plus optional
passphrase when signing, the skip-signing flag otherwise.  An absent or
empty passphrase (falsy in Python) is modelled as none. -/
def signOpts (cfg : Cfg) : List String :=
  if cfg.sign then
    ["-gpg-key", cfg.keyid]
      ++ (match cfg.passphrase with
          | some p => ["-passphrase", p]
          | none => [])
  else ["-skip-signing"]

/-- The aptly commands the two reconciliation implementations can issue
(pub prefixed: publisher.py; scr and src prefixed: the script). -/
inductive ACmd where
  | pubSwitch (component : String) (sopts : List String)
      (distro chan snap : String)
  | pubAdd (distro chan snap component : String)
  | pubUpdate (sopts : List String) (distro chan : String)
  | pubSnapshot (distro component : String) (sopts : List String)
      (snap chan : String)
  | srcAdd (chan component distro snap : String)
  | srcReplace (chan component distro snap : String)
  | scrSwitch (component : String) (sopts : List String)
      (distro chan snap : String)
  | scrSnapshot (distro component : String) (sopts : List String)
      (snap chan : String)
deriving DecidableEq

/-- The exact argv each command is run with, as the sources assemble it
(publisher.py lines 293-295, 304-306, 314-315, 324-325; aptly_publish.py
lines 204-216, 225-247). -/
def render : ACmd → List String
  | ACmd.pubSwitch comp sopts distro chan snap =>
    ["publish", "switch", "-component", comp, "-force-overwrite"]
      ++ sopts ++ [distro, chan, snap]
  | ACmd.pubAdd distro chan snap comp =>
    ["publish", "add", distro, chan, snap, comp]
  | ACmd.pubUpdate sopts distro chan =>
    ["publish", "update"] ++ sopts ++ [distro, chan]
  | ACmd.pubSnapshot distro comp sopts snap chan =>
    ["publish", "snapshot", "-distribution", distro, "-component", comp,
      "-force-overwrite"] ++ sopts ++ [snap, chan]
  | ACmd.srcAdd chan comp distro snap =>
    ["publish", "source", "add", "-prefix=" ++ chan, "-component", comp,
      distro, snap]
  | ACmd.srcReplace chan comp distro snap =>
    ["publish", "source", "replace", "-prefix=" ++ chan, "-component", comp,
      distro, snap]
  | ACmd.scrSwitch comp sopts distro chan snap =>
    ["publish", "switch", "-component", comp] ++ sopts ++ [distro, chan, snap]
  | ACmd.scrSnapshot distro comp sopts snap chan =>
    ["publish", "snapshot", "-distribution", distro, "-component", comp]
      ++ sopts ++ [snap, chan]

/-- The externally visible publication for the target (channel,
distribution): whether it exists and its components, each backed by the
snapshot last published into it (standing for its package set). -/
structure PubState where
  live : Bool
  comps : List (String × String)
deriving DecidableEq

/-- Modelled from the spec: the effect of the engine commands on the
publication.  Publish-from-snapshot creates the publication with the single
component bound at creation; switch atomically replaces the package set of
the named component only, leaving sibling components untouched; add (and
source add) stages a new component and fails on a component already
present; source replace sets the named component unconditionally; update
regenerates metadata without changing the component set. -/
def applyACmd (st : PubState) : ACmd → PubState
  | ACmd.pubSnapshot _ comp _ snap _ => { live := true, comps := [(comp, snap)] }
  | ACmd.scrSnapshot _ comp _ snap _ => { live := true, comps := [(comp, snap)] }
  | ACmd.pubSwitch comp _ _ _ snap =>
    { st with comps :=
        (st.comps.map (fun e => if e.1 = comp then (comp, snap) else e)) }
  | ACmd.scrSwitch comp _ _ _ snap =>
    { st with comps :=
        (st.comps.map (fun e => if e.1 = comp then (comp, snap) else e)) }
  | ACmd.pubAdd _ _ snap comp =>
    if comp ∈ st.comps.map Prod.fst then st
    else { st with comps := st.comps ++ [(comp, snap)] }
  | ACmd.srcAdd _ comp _ snap =>
    if comp ∈ st.comps.map Prod.fst then st
    else { st with comps := st.comps ++ [(comp, snap)] }
  | ACmd.srcReplace _ comp _ snap =>
    if comp ∈ st.comps.map Prod.fst then
      { st with comps :=
          (st.comps.map (fun e => if e.1 = comp then (comp, snap) else e)) }
    else { st with comps := st.comps ++ [(comp, snap)] }
  | ACmd.pubUpdate _ _ _ => st

/-- A command takes effect only when the engine reports exit status 0. -/
def stepCmd (exitOf : ACmd → Nat) (st : PubState) (c : ACmd) : PubState :=
  if exitOf c = 0 then applyACmd st c else st

/-- Observable events of one run: engine commands, the soft warning after a
failed metadata update, the sync-back/commit/push tail, process exit. -/
inductive Event where
  | cmd (c : ACmd)
  | warnUpdateFailed
  | syncBack
  | commit
  | push
  | exited (n : Nat)
deriving DecidableEq

/-- The sync-back, commit and push steps (publisher.py lines 328-341,
aptly_publish.py lines 249-259) that follow a non-aborted reconciliation. -/
def tailEvents : List Event := [Event.syncBack, Event.commit, Event.push]

inductive Transition where
  | Bootstrap
  | Add
  | Switch
deriving DecidableEq

/-- The decision table of publisher.py lines 287-288, 300 and 321 on
(publication exists, component in parsed component list). -/
def selectTransition (ourPublicationExists : Bool)
    (existingComponents : List String) (component : String) : Transition :=
  if ourPublicationExists then
    if component ∈ existingComponents then Transition.Switch
    else Transition.Add
  else Transition.Bootstrap

def switchCmd (cfg : Cfg) : ACmd :=
  ACmd.pubSwitch cfg.component (signOpts cfg) cfg.distro cfg.channel cfg.snap

def addCmd (cfg : Cfg) : ACmd :=
  ACmd.pubAdd cfg.distro cfg.channel cfg.snap cfg.component

def updateCmd (cfg : Cfg) : ACmd :=
  ACmd.pubUpdate (signOpts cfg) cfg.distro cfg.channel

def snapshotCmd (cfg : Cfg) : ACmd :=
  ACmd.pubSnapshot cfg.distro cfg.component (signOpts cfg) cfg.snap cfg.channel

/-- Embedding of publisher.py lines 287-343: select and execute one
transition, then sync back, commit and push.  A failed switch or add logs
an error and exits with status 1; a failed first-time publish raises
(check=True) and also terminates the process with a nonzero status; a
failed metadata update after a successful add is only a warning.  The
result is the event trace, the final publication state, and the exit
status when the run aborted. -/
def publisherReconcile (cfg : Cfg) (ourPublicationExists : Bool)
    (existingComponents : List String) (exitOf : ACmd → Nat) (st : PubState) :
    List Event × PubState × Option Nat :=
  if ourPublicationExists then
    if cfg.component ∈ existingComponents then
      let c := switchCmd cfg
      let st1 := stepCmd exitOf st c
      if exitOf c ≠ 0 then ([Event.cmd c, Event.exited 1], st1, some 1)
      else (Event.cmd c :: tailEvents, st1, none)
    else
      let a := addCmd cfg
      let st1 := stepCmd exitOf st a
      if exitOf a ≠ 0 then ([Event.cmd a, Event.exited 1], st1, some 1)
      else
        let u := updateCmd cfg
        let st2 := stepCmd exitOf st1 u
        if exitOf u ≠ 0 then
          (Event.cmd a :: Event.cmd u :: Event.warnUpdateFailed :: tailEvents,
            st2, none)
        else (Event.cmd a :: Event.cmd u :: tailEvents, st2, none)
  else
    let s := snapshotCmd cfg
    let st1 := stepCmd exitOf st s
    if exitOf s ≠ 0 then ([Event.cmd s, Event.exited 1], st1, some 1)
    else (Event.cmd s :: tailEvents, st1, none)

def scrSwitchCmd (cfg : Cfg) : ACmd :=
  ACmd.scrSwitch cfg.component (signOpts cfg) cfg.distro cfg.channel cfg.snap

def scrSnapshotCmd (cfg : Cfg) : ACmd :=
  ACmd.scrSnapshot cfg.distro cfg.component (signOpts cfg) cfg.snap cfg.channel

def srcAddCmd (cfg : Cfg) : ACmd :=
  ACmd.srcAdd cfg.channel cfg.component cfg.distro cfg.snap

def srcReplaceCmd (cfg : Cfg) : ACmd :=
  ACmd.srcReplace cfg.channel cfg.component cfg.distro cfg.snap

/-- Embedding of aptly_publish.py lines 202-259: the script selects its
transition on directory existence (first publish when the dists directory
is absent, switch when the component directory exists) and, in the add
path, falls back to publish source replace when publish source add fails,
then always runs publish update (check=True, so an update failure aborts).
The update argv construction at lines 240-246 produces the same list as
sign_opts. -/
def scriptReconcile (cfg : Cfg) (firstPublish componentDirExists : Bool)
    (exitOf : ACmd → Nat) (st : PubState) :
    List Event × PubState × Option Nat :=
  if firstPublish then
    let s := scrSnapshotCmd cfg
    let st1 := stepCmd exitOf st s
    if exitOf s ≠ 0 then ([Event.cmd s, Event.exited 1], st1, some 1)
    else (Event.cmd s :: tailEvents, st1, none)
  else if componentDirExists then
    let c := scrSwitchCmd cfg
    let st1 := stepCmd exitOf st c
    if exitOf c ≠ 0 then ([Event.cmd c, Event.exited 1], st1, some 1)
    else (Event.cmd c :: tailEvents, st1, none)
  else
    let a := srcAddCmd cfg
    let st1 := stepCmd exitOf st a
    if exitOf a ≠ 0 then
      let r := srcReplaceCmd cfg
      let st2 := stepCmd exitOf st1 r
      if exitOf r ≠ 0 then
        ([Event.cmd a, Event.cmd r, Event.exited 1], st2, some 1)
      else
        let u := updateCmd cfg
        let st3 := stepCmd exitOf st2 u
        if exitOf u ≠ 0 then
          ([Event.cmd a, Event.cmd r, Event.cmd u, Event.exited 1], st3, some 1)
        else ([Event.cmd a, Event.cmd r, Event.cmd u] ++ tailEvents, st3, none)
    else
      let u := updateCmd cfg
      let st2 := stepCmd exitOf st1 u
      if exitOf u ≠ 0 then
        ([Event.cmd a, Event.cmd u, Event.exited 1], st2, some 1)
      else ([Event.cmd a, Event.cmd u] ++ tailEvents, st2, none)

/-- Concrete configuration used by the closed instances. -/
def cfgEx : Cfg :=
  { component := "feelpp", distro := "noble", channel := "stable",
    sign := false, keyid := "", passphrase := none, snap := "snap-1" }

def exitAllZero : ACmd → Nat := fun _ => 0

def stEx0 : PubState := { live := true, comps := [("other", "s0")] }

/-- Every engine command in any publisher trace is one of the four commands
that publish builds (switch, add, update, publish-from-snapshot). -/
theorem publisherReconcile_cmds (cfg : Cfg) (pubExists : Bool)
    (comps : List String) (exitOf : ACmd → Nat) (st : PubState) :
    ∀ c : ACmd,
      Event.cmd c ∈ (publisherReconcile cfg pubExists comps exitOf st).1 →
      c = switchCmd cfg ∨ c = updateCmd cfg ∨ c = snapshotCmd cfg
        ∨ c = addCmd cfg := by
  intro c hc
  cases pubExists with
  | false =>
    unfold publisherReconcile at hc
    rw [if_neg (by simp)] at hc
    dsimp only [] at hc
    split at hc <;> simp [tailEvents] at hc <;> tauto
  | true =>
    unfold publisherReconcile at hc
    rw [if_pos rfl] at hc
    by_cases hmem : cfg.component ∈ comps
    · rw [if_pos hmem] at hc
      dsimp only [] at hc
      split at hc <;> simp [tailEvents] at hc <;> tauto
    · rw [if_neg hmem] at hc
      dsimp only [] at hc
      split at hc
      · simp [tailEvents] at hc
        tauto
      · split at hc <;> simp [tailEvents] at hc <;> tauto

/-- C1: the transition is selected by the decision table on (exists,
component in components): no existing publication selects Bootstrap
(publish from snapshot) regardless of component; an existing publication
with the component absent from the discovered list selects Add; with the
component present it selects Switch.  The first engine command of the
corresponding run matches the selected transition. -/
theorem reconcile_decision_table (comps : List String) (c : String)
    (cfg : Cfg) (exitOf : ACmd → Nat) (st : PubState) :
    selectTransition false comps c = Transition.Bootstrap
    ∧ (c ∉ comps → selectTransition true comps c = Transition.Add)
    ∧ (c ∈ comps → selectTransition true comps c = Transition.Switch)
    ∧ (publisherReconcile cfg false comps exitOf st).1.head?
        = some (Event.cmd (snapshotCmd cfg))
    ∧ (cfg.component ∉ comps →
        (publisherReconcile cfg true comps exitOf st).1.head?
          = some (Event.cmd (addCmd cfg)))
    ∧ (cfg.component ∈ comps →
        (publisherReconcile cfg true comps exitOf st).1.head?
          = some (Event.cmd (switchCmd cfg))) := by
  refine ⟨rfl, ?_, ?_, ?_, ?_, ?_⟩
  · intro h
    simp [selectTransition, h]
  · intro h
    simp [selectTransition, h]
  · unfold publisherReconcile
    rw [if_neg (by simp)]
    dsimp only []
    split <;> rfl
  · intro h
    unfold publisherReconcile
    rw [if_pos rfl, if_neg h]
    dsimp only []
    split
    · rfl
    · split <;> rfl
  · intro h
    unfold publisherReconcile
    rw [if_pos rfl, if_pos h]
    dsimp only []
    split <;> rfl

/-- Witness for the decision-table claim: with an existing publication
listing only the component other, the run for component feelpp starts with
the Add command. -/
theorem reconcile_decision_table_witness :
    (publisherReconcile cfgEx true ["other"] exitAllZero stEx0).1.head?
      = some (Event.cmd (addCmd cfgEx)) :=
  (reconcile_decision_table ["other"] "feelpp" cfgEx exitAllZero
    stEx0).2.2.2.2.1 (by decide)

/-- Exit oracle that fails exactly the publisher Add command. -/
def exitAddFails : ACmd → Nat := fun c => if c = addCmd cfgEx then 1 else 0

/-- C2 counterexample: in the library publisher (the state-inspecting
engine the claim describes), with the publication existing and component
feelpp not in the list, a failing Add aborts the run with exit status 1,
invokes no replace of any kind, and leaves the end state without the
component. -/
theorem add_failure_aborts_counterexample :
    (publisherReconcile cfgEx true ["other"] exitAddFails stEx0).2.2 = some 1
    ∧ (publisherReconcile cfgEx true ["other"] exitAddFails stEx0).1
        = [Event.cmd (addCmd cfgEx), Event.exited 1]
    ∧ Event.cmd (srcReplaceCmd cfgEx)
        ∉ (publisherReconcile cfgEx true ["other"] exitAddFails stEx0).1
    ∧ cfgEx.component ∉
        ((publisherReconcile cfgEx true ["other"] exitAddFails
          stEx0).2.1.comps.map Prod.fst) := by
  decide

/-- After publish source replace the component list contains the target. -/
theorem srcReplace_mem (cfg : Cfg) (st : PubState) :
    cfg.component
      ∈ ((applyACmd st (srcReplaceCmd cfg)).comps.map Prod.fst) := by
  show cfg.component ∈ ((applyACmd st (ACmd.srcReplace cfg.channel
    cfg.component cfg.distro cfg.snap)).comps.map Prod.fst)
  simp only [applyACmd]
  by_cases hin : cfg.component ∈ st.comps.map Prod.fst
  · rw [if_pos hin]
    obtain ⟨e, he, hfst⟩ := List.mem_map.mp hin
    exact List.mem_map.mpr ⟨(cfg.component, cfg.snap),
      List.mem_map.mpr ⟨e, he, by rw [if_pos hfst]⟩, rfl⟩
  · rw [if_neg hin]
    simp

/-- C2 amended: in the library publisher the Add transition runs add then
update, but an Add failure aborts the run with exit status 1, performs no
replace, and leaves the state unchanged; the Add-to-Replace fallback exists
only in the standalone script (whose add path is selected by directory
absence): there a failed publish source add is followed by publish source
replace and publish update, the run does not abort, and the end state
component list contains the component. -/
theorem add_failure_fallback_amended (cfg : Cfg) (comps : List String)
    (exitOf exitOf2 : ACmd → Nat) (st : PubState)
    (hnc : cfg.component ∉ comps) (hadd : exitOf (addCmd cfg) ≠ 0)
    (hsa : exitOf2 (srcAddCmd cfg) ≠ 0)
    (hsr : exitOf2 (srcReplaceCmd cfg) = 0)
    (hud : exitOf2 (updateCmd cfg) = 0) :
    (publisherReconcile cfg true comps exitOf st).2.2 = some 1
    ∧ (publisherReconcile cfg true comps exitOf st).1
        = [Event.cmd (addCmd cfg), Event.exited 1]
    ∧ (publisherReconcile cfg true comps exitOf st).2.1 = st
    ∧ (scriptReconcile cfg false false exitOf2 st).2.2 = none
    ∧ Event.cmd (srcReplaceCmd cfg)
        ∈ (scriptReconcile cfg false false exitOf2 st).1
    ∧ cfg.component
        ∈ ((scriptReconcile cfg false false exitOf2 st).2.1.comps.map
            Prod.fst) := by
  have hpub : publisherReconcile cfg true comps exitOf st
      = ([Event.cmd (addCmd cfg), Event.exited 1],
          stepCmd exitOf st (addCmd cfg), some 1) := by
    unfold publisherReconcile
    rw [if_pos rfl, if_neg hnc, if_pos hadd]
  have hstep : stepCmd exitOf st (addCmd cfg) = st := by
    unfold stepCmd
    rw [if_neg hadd]
  have hscr : scriptReconcile cfg false false exitOf2 st
      = ([Event.cmd (srcAddCmd cfg), Event.cmd (srcReplaceCmd cfg),
          Event.cmd (updateCmd cfg)] ++ tailEvents,
          stepCmd exitOf2 (stepCmd exitOf2 (stepCmd exitOf2 st
            (srcAddCmd cfg)) (srcReplaceCmd cfg)) (updateCmd cfg), none) := by
    unfold scriptReconcile
    rw [if_neg (by simp), if_neg (by simp), if_pos hsa,
        if_neg (by simp [hsr]), if_neg (by simp [hud])]
  refine ⟨by rw [hpub], by rw [hpub], by rw [hpub, hstep],
    by rw [hscr], by rw [hscr]; simp, ?_⟩
  rw [hscr]
  show cfg.component ∈ ((stepCmd exitOf2 (stepCmd exitOf2 (stepCmd exitOf2
    st (srcAddCmd cfg)) (srcReplaceCmd cfg)) (updateCmd cfg)).comps.map
      Prod.fst)
  have h1 : stepCmd exitOf2 st (srcAddCmd cfg) = st := by
    unfold stepCmd
    rw [if_neg hsa]
  have h2 : stepCmd exitOf2 st (srcReplaceCmd cfg)
      = applyACmd st (srcReplaceCmd cfg) := by
    unfold stepCmd
    rw [if_pos hsr]
  have h3 : ∀ st2 : PubState, stepCmd exitOf2 st2 (updateCmd cfg) = st2 := by
    intro st2
    unfold stepCmd
    rw [if_pos hud]
    rfl
  rw [h1, h2, h3]
  exact srcReplace_mem cfg st

/-- Exit oracle for the script side of the amended-claim witness: fails
exactly publish source add. -/
def exitSrcAddFails : ACmd → Nat :=
  fun c => if c = srcAddCmd cfgEx then 1 else 0

/-- Witness for the amended claim at the concrete configuration. -/
theorem add_failure_fallback_amended_witness :
    (publisherReconcile cfgEx true ["other"] exitAddFails stEx0).2.2
      = some 1 :=
  (add_failure_fallback_amended cfgEx ["other"] exitAddFails exitSrcAddFails
    stEx0 (by decide) (by decide) (by decide) (by decide) (by decide)).1

/-- C4: with the publication existing and the component already in its
list, the run starts with the publish switch subcommand for that component,
whose argv forces overwrite, and every sibling component entry (any
component other than the target) is unchanged in the end state, whether the
switch succeeds or fails. -/
theorem switch_preserves_siblings (cfg : Cfg) (comps : List String)
    (exitOf : ACmd → Nat) (st : PubState) (hc : cfg.component ∈ comps) :
    (publisherReconcile cfg true comps exitOf st).1.head?
        = some (Event.cmd (switchCmd cfg))
    ∧ render (switchCmd cfg)
        = ["publish", "switch", "-component", cfg.component,
            "-force-overwrite"] ++ signOpts cfg
            ++ [cfg.distro, cfg.channel, cfg.snap]
    ∧ ("-force-overwrite") ∈ render (switchCmd cfg)
    ∧ ∀ e ∈ st.comps, e.1 ≠ cfg.component →
        e ∈ (publisherReconcile cfg true comps exitOf st).2.1.comps := by
  have hstate : (publisherReconcile cfg true comps exitOf st).2.1
      = stepCmd exitOf st (switchCmd cfg) := by
    unfold publisherReconcile
    rw [if_pos rfl, if_pos hc]
    dsimp only []
    split <;> rfl
  refine ⟨?_, rfl, by simp [render, switchCmd], ?_⟩
  · unfold publisherReconcile
    rw [if_pos rfl, if_pos hc]
    dsimp only []
    split <;> rfl
  · intro e he hne
    rw [hstate]
    unfold stepCmd
    split
    · show e ∈ (applyACmd st (switchCmd cfg)).comps
      unfold switchCmd
      simp only [applyACmd]
      exact List.mem_map.mpr ⟨e, he, by rw [if_neg hne]⟩
    · exact he

/-- Witness for the switch claim: component feelpp present in the list, all
commands succeeding, with a sibling entry other. -/
theorem switch_preserves_siblings_witness :
    ("other", "s0") ∈ (publisherReconcile cfgEx true ["feelpp"] exitAllZero
      stEx0).2.1.comps :=
  (switch_preserves_siblings cfgEx ["feelpp"] exitAllZero stEx0
    (by decide)).2.2.2 ("other", "s0") (by decide) (by decide)

/-- C5: when Add succeeds and the subsequent metadata update returns
nonzero, the run does not abort: the trace records the warning and then the
sync-back, commit and push steps, and the exit status is none. -/
theorem update_failure_is_soft (cfg : Cfg) (comps : List String)
    (exitOf : ACmd → Nat) (st : PubState) (hnc : cfg.component ∉ comps)
    (hadd : exitOf (addCmd cfg) = 0) (hupd : exitOf (updateCmd cfg) ≠ 0) :
    (publisherReconcile cfg true comps exitOf st).1
      = [Event.cmd (addCmd cfg), Event.cmd (updateCmd cfg),
          Event.warnUpdateFailed, Event.syncBack, Event.commit, Event.push]
    ∧ (publisherReconcile cfg true comps exitOf st).2.2 = none := by
  have : publisherReconcile cfg true comps exitOf st
      = (Event.cmd (addCmd cfg) :: Event.cmd (updateCmd cfg) ::
          Event.warnUpdateFailed :: tailEvents,
          stepCmd exitOf (stepCmd exitOf st (addCmd cfg)) (updateCmd cfg),
          none) := by
    unfold publisherReconcile
    rw [if_pos rfl, if_neg hnc, if_neg (by simp [hadd]), if_pos hupd]
  rw [this]
  exact ⟨rfl, rfl⟩

/-- Exit oracle failing exactly the metadata update. -/
def exitUpdateFails : ACmd → Nat :=
  fun c => if c = updateCmd cfgEx then 1 else 0

/-- Witness for the soft metadata-update failure at the concrete
configuration. -/
theorem update_failure_is_soft_witness :
    (publisherReconcile cfgEx true ["other"] exitUpdateFails stEx0).2.2
      = none :=
  (update_failure_is_soft cfgEx ["other"] exitUpdateFails stEx0 (by decide)
    (by decide) (by decide)).2

/-- C6: the same sign_opts list is appended to the argv of every mutating
subcommand that accepts signing flags (publish switch, publish update,
publish snapshot); the Add argv carries no signing flags at all; every
command in any publisher trace is one of those four; and a successful Add
is immediately followed by the metadata update carrying the signing
flags. -/
theorem sign_flags_appended_uniformly (cfg : Cfg) (pubExists : Bool)
    (comps : List String) (exitOf : ACmd → Nat) (st : PubState) :
    render (switchCmd cfg)
      = ["publish", "switch", "-component", cfg.component,
          "-force-overwrite"] ++ signOpts cfg
          ++ [cfg.distro, cfg.channel, cfg.snap]
    ∧ render (updateCmd cfg)
      = ["publish", "update"] ++ signOpts cfg ++ [cfg.distro, cfg.channel]
    ∧ render (snapshotCmd cfg)
      = ["publish", "snapshot", "-distribution", cfg.distro, "-component",
          cfg.component, "-force-overwrite"] ++ signOpts cfg
          ++ [cfg.snap, cfg.channel]
    ∧ render (addCmd cfg)
      = ["publish", "add", cfg.distro, cfg.channel, cfg.snap, cfg.component]
    ∧ (cfg.sign = true → signOpts cfg = ["-gpg-key", cfg.keyid]
        ++ (match cfg.passphrase with
            | some p => ["-passphrase", p]
            | none => []))
    ∧ (cfg.sign = false → signOpts cfg = ["-skip-signing"])
    ∧ (∀ c : ACmd,
        Event.cmd c ∈ (publisherReconcile cfg pubExists comps exitOf st).1 →
        c = switchCmd cfg ∨ c = updateCmd cfg ∨ c = snapshotCmd cfg
          ∨ c = addCmd cfg)
    ∧ (cfg.component ∉ comps → exitOf (addCmd cfg) = 0 →
        ∃ rest, (publisherReconcile cfg true comps exitOf st).1
          = Event.cmd (addCmd cfg) :: Event.cmd (updateCmd cfg) :: rest) := by
  refine ⟨rfl, rfl, rfl, rfl, ?_, ?_,
    publisherReconcile_cmds cfg pubExists comps exitOf st, ?_⟩
  · intro hs
    simp [signOpts, hs]
  · intro hs
    simp [signOpts, hs]
  · intro hnc hadd
    unfold publisherReconcile
    rw [if_pos rfl, if_neg hnc, if_neg (by simp [hadd])]
    dsimp only []
    split
    · exact ⟨_, rfl⟩
    · exact ⟨_, rfl⟩

/-- Witness for the signing-flags claim: with the concrete unsigned
configuration the Add command is followed by the update command. -/
theorem sign_flags_appended_uniformly_witness :
    ∃ rest, (publisherReconcile cfgEx true ["other"] exitAllZero stEx0).1
      = Event.cmd (addCmd cfgEx) :: Event.cmd (updateCmd cfgEx) :: rest :=
  (sign_flags_appended_uniformly cfgEx true ["other"] exitAllZero
    stEx0).2.2.2.2.2.2.2 (by decide) rfl
